import Mathlib

/-!
Verification of the `liqd/ckeditor5-file-uploader` plugin against its design
specification.  The development shallowly embeds the plugin's own logic
(`src/fileuploadediting.ts`, `src/uploadfilecommand.ts` [fileuploader.ts],
`src/utils.ts` and the upload-progress presentation adapter) as executable
Lean functions and proves the specification's claims about them.

Host-framework collaborators (the CKEditor document model, differ, file
repository, view writer, the `mime` npm package, JS `RegExp`/`fetch`
semantics) are modelled by explicit parameters or small executable
semantics, as documented at every definition.
-/

namespace FileUploader

/-! ### Association-list helpers

The coordinator's `Map` (JS `Map` with string keys) is embedded as an
association list.  `aset` mirrors `Map.set` (replace in place, else append);
`aerase` mirrors `Map.delete`. -/

/-- Lookup in an association list keyed by strings (JS `Map.get`). -/
def alookup {α : Type} : List (String × α) → String → Option α
  | [], _ => none
  | p :: ps, k => if p.1 = k then some p.2 else alookup ps k

/-- Update in an association list (JS `Map.set`): replaces the first binding
of the key, appending a fresh binding when the key is absent. -/
def aset {α : Type} : List (String × α) → String → α → List (String × α)
  | [], k, v => [(k, v)]
  | p :: ps, k, v => if p.1 = k then (k, v) :: ps else p :: aset ps k v

/-- Deletion from an association list (JS `Map.delete`). -/
def aerase {α : Type} (l : List (String × α)) (k : String) : List (String × α) :=
  l.filter (fun p => p.1 ≠ k)

/-! ### Reconciliation pass (`FileUploadEditing.init`, `doc.on( 'change' )`)

The document-change handler of `src/fileuploadediting.ts` (lines 181–238)
replays the differ's change entries in reverse, collects the upload ids
re-inserted into live content, aborts loaders of nodes discarded into the
`$graveyard`, and re-points the `_uploadFileElements` side-table. -/

/-- A model item yielded by walking an inserted change item
(`editor.model.createRangeOn( item )`).  Only the attributes the handler
reads are modelled: the `uploadId` attribute (`none` for an absent
attribute) and whether the item carries a `linkHref` attribute
(the filter of `getFilesFromChangeItem`). -/
structure MNode where
  uploadId : Option String
  hasLinkHref : Bool
  deriving DecidableEq

/-- The `type` field of a differ change entry. -/
inductive EntryType where
  | insert
  | remove
  | attribute
  deriving DecidableEq

/-- One differ change entry (`doc.differ.getChanges`), as consumed by the
handler: its type, whether `entry.position.root.rootName == '$graveyard'`,
and the model items obtained by walking `entry.position.nodeAfter`
(an empty list models a missing `nodeAfter`). -/
structure ChangeEntry where
  etype : EntryType
  inGraveyard : Bool
  items : List MNode
  deriving DecidableEq

/-- Status of a host `FileLoader` (`ckeditor5/src/upload`). -/
inductive LStatus where
  | idle
  | reading
  | uploading
  | error
  | aborted
  deriving DecidableEq

/-- State threaded through one run of the document-change handler:
the host file repository's loaders (id to status — `abort()` and `read()`
set the status on the host object), the plugin's `_uploadFileElements`
side-table, the handler-local `insertedFileIds` set, and traces of the
`loader.abort()` calls and `_readAndUpload` starts made so far. -/
structure ProcState where
  loaders : List (String × LStatus)
  table : List (String × MNode)
  insertedIds : List String
  aborts : List String
  started : List String
  deriving DecidableEq

/-- Processing of a single model item of an inserted change entry
(the body of the `for ( const fileElement of getFilesFromChangeItem ... )`
loop).  The `linkHref` filter of `getFilesFromChangeItem` is folded into the
per-item guard (iterating a filtered list is the same as guarding each
item).  The falsy-`uploadId` guard (`if ( !uploadId ) continue`) covers both
a missing attribute and the empty string; the loader-existence guard mirrors
`fileRepository.loaders.get( uploadId )`.  `loader.abort()` records the call
and sets the host loader status to `aborted`; starting `_readAndUpload`
records the start and sets the status to `reading` (the synchronous effect
of `loader.read()`). -/
def processNode (isGy : Bool) (s : ProcState) (n : MNode) : ProcState :=
  if !n.hasLinkHref then s else
  match n.uploadId with
  | none => s
  | some uid =>
    if uid = "" then s else
    match alookup s.loaders uid with
    | none => s
    | some st =>
      if isGy then
        if uid ∈ s.insertedIds then s
        else { s with aborts := s.aborts ++ [uid],
                      loaders := aset s.loaders uid .aborted }
      else
        let s1 := { s with insertedIds := uid :: s.insertedIds,
                           table := aset s.table uid n }
        if st = .idle then
          { s1 with started := s1.started ++ [uid],
                    loaders := aset s1.loaders uid .reading }
        else s1

/-- Processing of one differ change entry: only `insert` entries are
examined; the entry's walked items are folded left to right. -/
def processEntry (s : ProcState) (e : ChangeEntry) : ProcState :=
  if e.etype = .insert then e.items.foldl (processNode e.inGraveyard) s else s

/-- One run of the document-change handler on the raw differ output `cs`:
the entries are reversed (`.getChanges( ... ).reverse()`) and replayed with
an initially empty `insertedFileIds` set. -/
def runBatch (loaders : List (String × LStatus)) (table : List (String × MNode))
    (cs : List ChangeEntry) : ProcState :=
  (cs.reverse).foldl processEntry
    { loaders := loaders, table := table, insertedIds := [], aborts := [], started := [] }

/-- An item is relevant to upload id `x` when the handler's guards let it
through for that id: it carries `linkHref` and its `uploadId` attribute is
exactly `x`. -/
def relNode (x : String) (n : MNode) : Bool :=
  n.hasLinkHref && n.uploadId == some x

/-- The entry is an insertion into the graveyard carrying an `x`-relevant
item. -/
def gyRel (x : String) (e : ChangeEntry) : Bool :=
  e.etype == .insert && e.inGraveyard && e.items.any (relNode x)

/-- The entry is an insertion into live content carrying an `x`-relevant
item. -/
def liveRel (x : String) (e : ChangeEntry) : Bool :=
  e.etype == .insert && !e.inGraveyard && e.items.any (relNode x)

/-- Number of `x`-relevant items inserted into the graveyard by the batch. -/
def gyRelCount (x : String) (cs : List ChangeEntry) : Nat :=
  (cs.map (fun e =>
    if e.etype == .insert && e.inGraveyard then (e.items.filter (relNode x)).length
    else 0)).sum

/-- Whether the batch inserts an `x`-relevant item into live content. -/
def liveRelAny (x : String) (cs : List ChangeEntry) : Bool :=
  cs.any (liveRel x)

/-- The `x`-relevant items the batch inserts into live content. -/
def liveItems (x : String) (cs : List ChangeEntry) : List MNode :=
  cs.flatMap (fun e =>
    if e.etype == .insert && !e.inGraveyard then e.items.filter (relNode x) else [])

/-! ### The upload driver (`FileUploadEditing._readAndUpload`)

The promise chain of `_readAndUpload` (lines 258–327) is linearised under
the single-threaded event-loop model: each `.then` / `.catch` continuation
becomes one sequential step, and the document/notification writes it issues
are recorded as an ordered effect trace.  Other event-loop activity at the
two await points (the read and the upload) may re-point the
`_uploadFileElements` side-table, so the success path takes one arbitrary
table transformer per await point. -/

/-- One observable side effect of the upload driver.  Elements are named by
opaque strings.  `setStatus e v` is
`writer.setAttribute( 'uploadStatus', v, e )`; `fireComplete e d` is
`this.fire( 'uploadComplete', { data, fileElement } )`; `removeAttr` and
`removeNode` are the corresponding writer calls; `warn` is
`notification.showWarning`; `destroy id` is
`fileRepository.destroyLoader( loader )`. -/
inductive Effect where
  | setStatus (elem : String) (v : String)
  | fireComplete (elem : String) (payload : String)
  | removeAttr (elem : String) (attr : String)
  | removeNode (elem : String)
  | warn (msg : String)
  | destroy (id : String)
  deriving DecidableEq

/-- The side-table as seen by `_readAndUpload`: upload id to the (opaque
name of the) mapped model element. -/
abbrev Table := List (String × String)

/-- `fileUploadElements.get( loader.id )!` — the non-null assertion is
modelled by a default dummy element name. -/
def lookupElem (t : Table) (id : String) : String :=
  (alookup t id).getD ""

/-- The `clean()` helper (lines 315–326): strip `uploadId` and
`uploadStatus` from the currently mapped element, delete the side-table
entry, then destroy the loader. -/
def cleanRun (t : Table) (id : String) : Table × List Effect :=
  let e := lookupElem t id
  (aerase t id,
   [Effect.removeAttr e "uploadId", Effect.removeAttr e "uploadStatus", Effect.destroy id])

/-- The success path of `_readAndUpload` for the loader `id`: the initial
`uploadStatus = 'reading'` write, then (after `loader.read()` resolves,
during which the environment may re-point the table via `env1`) the
`'uploading'` write, then (after `loader.upload()` resolves with `payload`,
during which `env2` may run) the `'complete'` write, the `uploadComplete`
event, and `clean()`.  Every element write targets the element the
side-table maps `id` to at that moment, exactly as the repeated
`fileUploadElements.get( loader.id )` lookups do. -/
def readAndUploadSuccess (id payload : String) (t : Table)
    (env1 env2 : Table → Table) : Table × List Effect :=
  let a0 := lookupElem t id
  let t1 := env1 t
  let a1 := lookupElem t1 id
  let t2 := env2 t1
  let a2 := lookupElem t2 id
  let c := cleanRun t2 id
  (c.1,
   Effect.setStatus a0 "reading" ::
   Effect.setStatus a1 "uploading" ::
   Effect.setStatus a2 "complete" ::
   Effect.fireComplete a2 payload :: c.2)

/-- The `catch` continuation of `_readAndUpload` (lines 292–313), given the
loader's status (a host-side string) at rejection time and the rejection
value `err` (`none` models a falsy JS value).  A status other than
`'error'`/`'aborted'` re-throws the rejection (`Except.error`); otherwise a
warning is shown only for status `'error'` with a truthy value, the mapped
element is removed from the document, and `clean()` runs. -/
def readAndUploadCatch (id status : String) (err : Option String) (t : Table) :
    Except (Option String) (Table × List Effect) :=
  if status ≠ "error" ∧ status ≠ "aborted" then
    Except.error err
  else
    let warnEffs := match status, err with
      | "error", some m => [Effect.warn m]
      | _, _ => []
    let e := lookupElem t id
    let c := cleanRun t id
    Except.ok (c.1, warnEffs ++ Effect.removeNode e :: c.2)

/-! ### MIME/type matcher (`createFileTypeRegExp`, `src/utils.ts` 24–36)

`createFileTypeRegExp` escapes a `+` in each configured token, resolves the
token through the `mime` npm package, drops tokens that do not resolve, and
builds `new RegExp( '^' + names.join( '|' ) + '$' )`.  The resulting
predicate is the `test` method of that regular expression. -/

/-- The external `mime` package's `getType`, modelled as a finite table of
common extensions.  All listed canonical types are plain strings over
letters, digits and `/`, so they contain no regular-expression
metacharacters. -/
def mimeGetType (ext : String) : Option String :=
  alookup
    [ ("pdf", "application/pdf"),
      ("png", "image/png"),
      ("jpeg", "image/jpeg"),
      ("jpg", "image/jpeg"),
      ("gif", "image/gif"),
      ("txt", "text/plain"),
      ("zip", "application/zip") ] ext

/-- JS `type.replace( '+', '\\+' )`: replace the first occurrence of `+`
with a backslash followed by `+`. -/
def escapePlus (cs : List Char) : List Char :=
  match cs with
  | [] => []
  | c :: rest => if c = '+' then '\\' :: '+' :: rest else c :: escapePlus rest

/-- The canonical MIME types resolved from the configured tokens
(the `flatMap` of `createFileTypeRegExp`); unresolvable tokens are
dropped. -/
def resolvedFileTypes (types : List String) : List String :=
  types.flatMap (fun type =>
    match mimeGetType (String.mk (escapePlus type.toList)) with
    | some mimeType => [mimeType]
    | none => [])

/-- Substring containment test on character lists (occurrence of `pat`
anywhere in the subject). -/
def listInfix (pat : List Char) : List Char → Bool
  | [] => pat.isEmpty
  | c :: cs => pat.isPrefixOf (c :: cs) || listInfix pat cs

/-- JS `RegExp.test` semantics for the pattern
`'^' + names.join( '|' ) + '$'` when every name is a literal string without
metacharacters.  Splitting the pattern at `|` yields the branches
`^n1, n2, …, nk$`: with no name the pattern is `^$` (matches only the empty
string); with one name both anchors apply to it (exact match); with several
names only the first branch is start-anchored and only the last is
end-anchored, so the first name matches as a prefix, the last as a suffix,
and every middle name as an arbitrary substring. -/
def regexTestJoin (names : List String) (s : String) : Bool :=
  match names with
  | [] => s = ""
  | [n] => s = n
  | n :: m :: rest =>
    n.toList.isPrefixOf s.toList
      || ((m :: rest).dropLast).any (fun mid => listInfix mid.toList s.toList)
      || ((m :: rest).getLast (by simp)).toList.isSuffixOf s.toList

/-- `createFileTypeRegExp( types ).test( s )`. -/
def fileTypeTest (types : List String) (s : String) : Bool :=
  regexTestJoin (resolvedFileTypes types) s

/-! ### Local-file fetcher (`fetchLocalFile` / `getFileMimeType`,
`src/utils.ts` 45–66 and 85–93) -/

/-- JS `\w`: an ASCII letter, digit or underscore. -/
def isWordChar (c : Char) : Bool :=
  c.isAlpha || c.isDigit || c = '_'

/-- Attempted match of the regular expression `data:(image\/\w+);base64` at
the start of the subject, returning the capture group `image\/\w+`.  The
greedy `\w+` takes the maximal run of word characters; since `;` is not a
word character, this coincides with the backtracking semantics. -/
def dataUriMatchAt (cs : List Char) : Option (List Char) :=
  if ("data:image/".toList).isPrefixOf cs then
    let rest := cs.drop 11
    let ws := rest.takeWhile isWordChar
    if ws ≠ [] ∧ (";base64".toList).isPrefixOf (rest.drop ws.length) then
      some ("image/".toList ++ ws)
    else none
  else none

/-- `String.prototype.match`: try the pattern at each position, left to
right, returning the first capture. -/
def dataUriSearchAux : List Char → Option (List Char)
  | [] => none
  | c :: cs =>
    match dataUriMatchAt (c :: cs) with
    | some g => some g
    | none => dataUriSearchAux cs

/-- First match of `/data:(image\/\w+);base64/` in `src`, capture group 1. -/
def dataUriSearch (src : String) : Option String :=
  (dataUriSearchAux src.toList).map String.mk

/-- JS `String.prototype.toLowerCase` on ASCII content. -/
def jsToLower (s : String) : String :=
  String.mk (s.toList.map Char.toLower)

/-- `getFileMimeType( blob, src )`: the blob's `type` when truthy (the empty
string is the falsy case), otherwise the lowercased capture of the
`data:` URI pattern in `src`, otherwise a thrown error (here
`Except.error`). -/
def getFileMimeType (blobType : String) (src : String) : Except String String :=
  if blobType ≠ "" then Except.ok blobType
  else
    match dataUriSearch src with
    | some g => Except.ok (jsToLower g)
    | none => Except.error "Failed to determine mime type for file."

/-- The materialized file record produced by `fetchLocalFile`
(`new File( [ blob ], filename, { type: mimeType } )`; the raw bytes are
irrelevant to the claims and omitted). -/
structure JsFile where
  name : String
  type : String
  deriving DecidableEq

/-- JS `String.prototype.replace` with a plain-string pattern: remove the
first occurrence of `pat` (the replacement here is the empty string). -/
def removeFirstOcc (pat : List Char) : List Char → List Char
  | [] => []
  | c :: cs =>
    if pat.isPrefixOf (c :: cs) then (c :: cs).drop pat.length
    else c :: removeFirstOcc pat cs

/-- Outcome of the host `fetch( fileSrc ).then( r => r.blob() )` step:
either the blob's MIME `type` string (possibly empty), or a network /
security-policy rejection. -/
inductive FetchOutcome where
  | ok (blobType : String)
  | fail (err : String)
  deriving DecidableEq

/-- `fetchLocalFile` for an element whose `href` is `fileSrc`: a fetch
rejection rejects the promise; otherwise the MIME type is resolved by
`getFileMimeType` (whose thrown error also rejects, through the `.catch`),
and the file record is built with `filename = 'file.' + ext` where `ext`
is the MIME type with a leading `file/` occurrence removed. -/
def fetchLocalFile (fileSrc : String) (outcome : FetchOutcome) :
    Except String JsFile :=
  match outcome with
  | .fail err => Except.error err
  | .ok blobType =>
    match getFileMimeType blobType fileSrc with
    | .error e => Except.error e
    | .ok mimeType =>
      let ext := String.mk (removeFirstOcc "file/".toList mimeType.toList)
      Except.ok { name := "file." ++ ext, type := mimeType }

/-! ### Upload command (`UploadFileCommand`, `src/fileuploader.ts`)

`execute` captures the document selection's attributes once, then inserts
one anchor per file; `_uploadFile` adds `linkHref: ''` and the loader id on
top of the captured attributes; `_insertFile` mixes the selection attributes
current at insertion time under the passed attributes and filters them
through the schema.  JS object spread is right-biased: a later source
overrides an earlier one key-wise. -/

/-- A JS attribute object: an association list without duplicate keys
(later spreads override earlier bindings key-wise). -/
abbrev Attrs := List (String × String)

/-- JS `{ ...base, ...override }`: bindings of `override` win on shared
keys. -/
def spreadMerge (base ov : Attrs) : Attrs :=
  base.filter (fun p => (alookup ov p.1).isNone) ++ ov

/-- The `for ( const attributeName in attributes )` loop of `_insertFile`:
delete every attribute the schema does not allow on `$text`
(`model.schema.checkAttribute`), here modelled by the allow-list
`allowed`. -/
def filterSchema (allowed : List String) (a : Attrs) : Attrs :=
  a.filter (fun p => p.1 ∈ allowed)

/-- The attribute set `_insertFile` puts on the created text node, given the
selection attributes current at insertion time (`selNow`) and the
attributes passed in by the caller. -/
def insertFileAttrs (allowed : List String) (selNow attrs : Attrs) : Attrs :=
  filterSchema allowed (spreadMerge selNow attrs)

/-- The attribute set produced for one file by `_uploadFile` (when
`createLoader` returned a loader with id `lid`): the captured selection
attributes extended with `linkHref: ''` and `uploadId: lid`, passed through
`_insertFile`. -/
def uploadFileAttrs (allowed : List String) (selNow captured : Attrs)
    (lid : String) : Attrs :=
  insertFileAttrs allowed selNow
    (spreadMerge captured [("linkHref", ""), ("uploadId", lid)])

/-- `UploadFileCommand.execute` over a list of files: `sel i` is the
document selection's attribute set observed at the time of the `i`-th
insertion (the host selection may move between insertions); the captured
set is `sel 0`, read once before any insertion.  `loaders` holds, per
file, the loader id `createLoader` returned, or `none` when no upload
adapter is configured (that file is skipped).  The result lists, per file,
the attribute set of the inserted anchor (or `none` when skipped). -/
def executeAttrs (allowed : List String) (sel : Nat → Attrs)
    (loaders : List (Option String)) : List (Option Attrs) :=
  let captured := sel 0
  (loaders.enum).map (fun p =>
    p.2.map (fun lid => uploadFileAttrs allowed (sel p.1) captured lid))

/-! ### Progress presentation (`FileUploadProgress.uploadStatusChange`,
`src/unnamed/part_000` 67–214)

The downcast listener decorates the view figure mapped from the changed
model item.  Only view-layer state is touched; the model item itself is
read-only input.  The view figure is modelled by its class list and its
list of appended decoration children (a progress bar carries the
`progressBar` custom property; the completion icon does not). -/

/-- A decoration child appended to the view figure. -/
inductive ViewChild where
  | progressBar
  | completeIcon
  deriving DecidableEq

/-- The view figure: its CSS classes and its decoration children in
document order. -/
structure ViewFigure where
  classes : List String
  children : List ViewChild
  deriving DecidableEq

/-- `_startAppearEffect`: add `ck-appear` unless already present. -/
def startAppearEffect (f : ViewFigure) : ViewFigure :=
  if "ck-appear" ∈ f.classes then f
  else { f with classes := f.classes ++ ["ck-appear"] }

/-- `_stopAppearEffect`: `writer.removeClass( 'ck-appear', viewFigure )`. -/
def stopAppearEffect (f : ViewFigure) : ViewFigure :=
  { f with classes := f.classes.filter (fun c => c ≠ "ck-appear") }

/-- `_showProgressBar`: create a progress bar and insert it at the end of
the figure (no presence check). -/
def showProgressBar (f : ViewFigure) : ViewFigure :=
  { f with children := f.children ++ [ViewChild.progressBar] }

/-- Removal of the first child carrying the given marker
(`_getUIElement` finds the first such child; `_removeUIElement` removes
it). -/
def removeFirstChild (m : ViewChild) : List ViewChild → List ViewChild
  | [] => []
  | c :: cs => if c = m then cs else c :: removeFirstChild m cs

/-- `_hideProgressBar`: remove the first `progressBar` child, if any. -/
def hideProgressBar (f : ViewFigure) : ViewFigure :=
  { f with children := removeFirstChild ViewChild.progressBar f.children }

/-- `_showCompleteIcon`: insert a completion icon at the end of the figure
(no presence check; its delayed removal is a separate timer callback, not
part of this synchronous handler). -/
def showCompleteIcon (f : ViewFigure) : ViewFigure :=
  { f with children := f.children ++ [ViewChild.completeIcon] }

/-- The `uploadStatusChange` downcast listener, for an invocation whose
consumable test passed (`consume = true`; a consumed event returns the
figure unchanged) on a model item whose `uploadId` presence is
`hasUploadId`, with the new `uploadStatus` value and whether the file
repository still holds a loader for the id.  Follows lines 67–127 of the
source: `status` is nulled without `uploadId`; `'reading'` starts the
appear effect and returns; `'uploading'` starts the appear effect and, with
a loader, shows the progress bar, then returns; otherwise the completion
icon is shown for `'complete'` with a live loader, and the cleanup
(`_hideProgressBar`, `_stopAppearEffect`) always runs. -/
def uploadStatusChange (consume hasUploadId : Bool) (newValue : Option String)
    (loaderPresent : Bool) (f : ViewFigure) : ViewFigure :=
  if !consume then f else
  let status := if hasUploadId then newValue else none
  if status = some "reading" then
    startAppearEffect f
  else if status = some "uploading" then
    let f1 := startAppearEffect f
    if loaderPresent then showProgressBar f1 else f1
  else
    let f1 := if status = some "complete" ∧ loaderPresent then showCompleteIcon f else f
    stopAppearEffect (hideProgressBar f1)

/-! ### Helper lemmas on the association-list primitives -/

theorem alookup_aset_self {α : Type} (l : List (String × α)) (k : String) (v : α) :
    alookup (aset l k v) k = some v := by
  induction l with
  | nil => simp [aset, alookup]
  | cons p ps ih =>
    by_cases h : p.1 = k
    · simp [aset, alookup, h]
    · simp [aset, alookup, h, ih]

theorem alookup_aset_ne {α : Type} (l : List (String × α)) (k k' : String) (v : α)
    (h : k' ≠ k) : alookup (aset l k v) k' = alookup l k' := by
  have hk : ¬(k = k') := fun hh => h hh.symm
  induction l with
  | nil => simp [aset, alookup, hk]
  | cons p ps ih =>
    by_cases hp : p.1 = k
    · subst hp
      simp [aset, alookup, hk]
    · by_cases hp' : p.1 = k'
      · simp [aset, alookup, hp, hp', h]
      · simp [aset, alookup, hp, hp', ih]

theorem isSome_alookup_aset {α : Type} (l : List (String × α)) (k k' : String) (v : α)
    (h : (alookup l k').isSome = true) :
    (alookup (aset l k v) k').isSome = true := by
  by_cases hk : k' = k
  · subst hk; simp [alookup_aset_self]
  · rwa [alookup_aset_ne l k k' v hk]

theorem alookup_aerase_self {α : Type} (l : List (String × α)) (k : String) :
    alookup (aerase l k) k = none := by
  induction l with
  | nil => simp [aerase, alookup]
  | cons p ps ih =>
    by_cases h : p.1 = k
    · simpa [aerase, List.filter, h] using ih
    · simpa [aerase, List.filter, h, alookup] using ih

/-! ### Characterisations of the reconciliation relevance predicates -/

theorem relNode_iff (x : String) (n : MNode) :
    relNode x n = true ↔ n.hasLinkHref = true ∧ n.uploadId = some x := by
  simp [relNode, Bool.and_eq_true, beq_iff_eq]

theorem count_append_singleton_ne (l : List String) (x y : String) (h : y ≠ x) :
    (l ++ [y]).count x = l.count x := by
  simp [List.count_append, List.count_cons, h]

/-! ### Per-item lemmas about the reconciliation step -/

/-- An item that is not `x`-relevant leaves every `x`-indexed component of
the state untouched. -/
theorem processNode_not_rel (x : String) (g : Bool) (s : ProcState) (n : MNode)
    (h : relNode x n = false) :
    (processNode g s n).aborts.count x = s.aborts.count x ∧
    (processNode g s n).started.count x = s.started.count x ∧
    alookup (processNode g s n).table x = alookup s.table x ∧
    (x ∈ (processNode g s n).insertedIds ↔ x ∈ s.insertedIds) ∧
    (alookup (processNode g s n).loaders x).isSome = (alookup s.loaders x).isSome := by
  by_cases hl : n.hasLinkHref
  · cases hn : n.uploadId with
    | none => simp [processNode, hl, hn]
    | some uid =>
      have huid : uid ≠ x := by
        intro he
        subst he
        simp [relNode, hl, hn] at h
      have hxu : x ≠ uid := fun he => huid he.symm
      by_cases he : uid = ""
      · simp [processNode, hl, hn, he]
      · cases hld : alookup s.loaders uid with
        | none => simp [processNode, hl, hn, he, hld]
        | some st =>
          cases g with
          | true =>
            by_cases hin : uid ∈ s.insertedIds
            · simp [processNode, hl, hn, he, hld, hin]
            · simp [processNode, hl, hn, he, hld, hin,
                count_append_singleton_ne _ _ _ huid,
                alookup_aset_ne _ _ _ _ hxu, hxu]
          | false =>
            by_cases hst : st = LStatus.idle
            · simp [processNode, hl, hn, he, hld, hst,
                count_append_singleton_ne _ _ _ huid,
                alookup_aset_ne _ _ _ _ hxu, hxu]
            · simp [processNode, hl, hn, he, hld, hst,
                alookup_aset_ne _ _ _ _ hxu, hxu]
  · simp [processNode, hl]

/-- A graveyard insertion of an `x`-relevant item, with the loader present
and `x` not yet seen as re-inserted, aborts the loader exactly once and
touches nothing else of the `x`-indexed state. -/
theorem processNode_rel_gy (x : String) (s : ProcState) (n : MNode)
    (hrel : relNode x n = true) (hx : x ≠ "")
    (hld : (alookup s.loaders x).isSome = true)
    (hnin : x ∉ s.insertedIds) :
    (processNode true s n).aborts.count x = s.aborts.count x + 1 ∧
    (processNode true s n).started.count x = s.started.count x ∧
    alookup (processNode true s n).table x = alookup s.table x ∧
    x ∉ (processNode true s n).insertedIds ∧
    (alookup (processNode true s n).loaders x).isSome = true := by
  obtain ⟨hl, hn⟩ := (relNode_iff x n).mp hrel
  obtain ⟨st, hst⟩ := Option.isSome_iff_exists.mp hld
  simp [processNode, hl, hn, hx, hst, hnin, List.count_append, List.count_cons,
    alookup_aset_self]

/-- Once `x` is in the handler-local re-inserted set, no further item can
abort it or remove it from the set. -/
theorem processNode_inset (x : String) (g : Bool) (s : ProcState) (n : MNode)
    (hin : x ∈ s.insertedIds) :
    (processNode g s n).aborts.count x = s.aborts.count x ∧
    x ∈ (processNode g s n).insertedIds := by
  by_cases hrel : relNode x n = true
  · obtain ⟨hl, hn⟩ := (relNode_iff x n).mp hrel
    by_cases hx : x = ""
    · subst hx
      simp [processNode, hl, hn, hin]
    · cases hld : alookup s.loaders x with
      | none => simp [processNode, hl, hn, hx, hld, hin]
      | some st =>
        cases g with
        | true => simp [processNode, hl, hn, hx, hld, hin]
        | false =>
          by_cases hi : st = LStatus.idle
          · simp [processNode, hl, hn, hx, hld, hi, hin]
          · simp [processNode, hl, hn, hx, hld, hi, hin]
  · have h := processNode_not_rel x g s n (by simpa using hrel)
    exact ⟨h.1, (h.2.2.2.1).mpr hin⟩

/-- A live insertion of an `x`-relevant item (loader present) marks `x` as
re-inserted, re-points the side-table to the inserted item, and never
aborts. -/
theorem processNode_rel_live (x : String) (s : ProcState) (n : MNode)
    (hrel : relNode x n = true) (hx : x ≠ "")
    (hld : (alookup s.loaders x).isSome = true) :
    (processNode false s n).aborts.count x = s.aborts.count x ∧
    alookup (processNode false s n).table x = some n ∧
    x ∈ (processNode false s n).insertedIds ∧
    (alookup (processNode false s n).loaders x).isSome = true := by
  obtain ⟨hl, hn⟩ := (relNode_iff x n).mp hrel
  obtain ⟨st, hst⟩ := Option.isSome_iff_exists.mp hld
  by_cases hi : st = LStatus.idle
  · simp [processNode, hl, hn, hx, hst, hi, alookup_aset_self,
      isSome_alookup_aset, hld]
  · simp [processNode, hl, hn, hx, hst, hi, alookup_aset_self, hld]

/-- The side-table entry for `x` is either untouched by an item, or the item
is an `x`-relevant live insertion the entry now points to. -/
theorem processNode_table_cases (x : String) (g : Bool) (s : ProcState) (n : MNode) :
    alookup (processNode g s n).table x = alookup s.table x ∨
    (g = false ∧ relNode x n = true ∧
      alookup (processNode g s n).table x = some n) := by
  by_cases hl : n.hasLinkHref
  · cases hn : n.uploadId with
    | none => simp [processNode, hl, hn]
    | some uid =>
      by_cases he : uid = ""
      · simp [processNode, hl, hn, he]
      · cases hld : alookup s.loaders uid with
        | none => simp [processNode, hl, hn, he, hld]
        | some st =>
          cases g with
          | true =>
            by_cases hin : uid ∈ s.insertedIds
            · simp [processNode, hl, hn, he, hld, hin]
            · simp [processNode, hl, hn, he, hld, hin]
          | false =>
            by_cases hxu : x = uid
            · subst hxu
              right
              have hrel : relNode x n = true := (relNode_iff x n).mpr ⟨hl, hn⟩
              by_cases hi : st = LStatus.idle
              · simp [processNode, hl, hn, he, hld, hi, hrel, alookup_aset_self]
              · simp [processNode, hl, hn, he, hld, hi, hrel, alookup_aset_self]
            · left
              by_cases hi : st = LStatus.idle
              · simp [processNode, hl, hn, he, hld, hi, alookup_aset_ne _ _ _ _ hxu]
              · simp [processNode, hl, hn, he, hld, hi, alookup_aset_ne _ _ _ _ hxu]
  · simp [processNode, hl]

/-! ### Item-list (one change entry) lemmas -/

/-- Folding any item list keeps `x` in the re-inserted set and keeps its
abort count. -/
theorem foldN_inset (x : String) (g : Bool) :
    ∀ (ns : List MNode) (s : ProcState), x ∈ s.insertedIds →
      (ns.foldl (processNode g) s).aborts.count x = s.aborts.count x ∧
      x ∈ (ns.foldl (processNode g) s).insertedIds
  | [], s, hin => ⟨rfl, hin⟩
  | n :: ns, s, hin => by
    have h1 := processNode_inset x g s n hin
    have h2 := foldN_inset x g ns (processNode g s n) h1.2
    exact ⟨h2.1.trans h1.1, h2.2⟩

/-- Folding an item list of a graveyard insertion, from a state where `x` is
absent from the re-inserted set: the abort count grows by the number of
`x`-relevant items, and the set, table, started list and loader presence at
`x` are untouched. -/
theorem foldN_gy (x : String) (hx : x ≠ "") :
    ∀ (ns : List MNode) (s : ProcState),
      (alookup s.loaders x).isSome = true → x ∉ s.insertedIds →
      (ns.foldl (processNode true) s).aborts.count x
          = s.aborts.count x + (ns.filter (relNode x)).length ∧
      (ns.foldl (processNode true) s).started.count x = s.started.count x ∧
      alookup (ns.foldl (processNode true) s).table x = alookup s.table x ∧
      x ∉ (ns.foldl (processNode true) s).insertedIds ∧
      (alookup (ns.foldl (processNode true) s).loaders x).isSome = true
  | [], s, hld, hnin => ⟨by simp, rfl, rfl, hnin, hld⟩
  | n :: ns, s, hld, hnin => by
    by_cases hrel : relNode x n = true
    · have h1 := processNode_rel_gy x s n hrel hx hld hnin
      have h2 := foldN_gy x hx ns (processNode true s n) h1.2.2.2.2 h1.2.2.2.1
      refine ⟨?_, h2.2.1.trans h1.2.1, h2.2.2.1.trans h1.2.2.1, h2.2.2.2.1, h2.2.2.2.2⟩
      simp only [List.foldl_cons] at *
      rw [h2.1, h1.1, List.filter_cons_of_pos hrel]
      simp [Nat.add_comm, Nat.add_assoc, Nat.add_left_comm]
    · have hrel' : relNode x n = false := by simpa using hrel
      have h1 := processNode_not_rel x true s n hrel'
      have h2 := foldN_gy x hx ns (processNode true s n)
        (by rw [h1.2.2.2.2]; exact hld) (fun hc => hnin ((h1.2.2.2.1).mp hc))
      refine ⟨?_, h2.2.1.trans h1.2.1, h2.2.2.1.trans h1.2.2.1, h2.2.2.2.1, h2.2.2.2.2⟩
      simp only [List.foldl_cons] at *
      rw [h2.1, h1.1, List.filter_cons_of_neg (by simp [hrel'])]

/-- Folding an item list of a live insertion never aborts, adds `x` to the
re-inserted set exactly when an `x`-relevant item occurs, and re-points the
side-table to such an item when one occurs (leaving it untouched
otherwise). -/
theorem foldN_live (x : String) (hx : x ≠ "") :
    ∀ (ns : List MNode) (s : ProcState),
      (alookup s.loaders x).isSome = true →
      (ns.foldl (processNode false) s).aborts.count x = s.aborts.count x ∧
      (x ∈ (ns.foldl (processNode false) s).insertedIds
          ↔ x ∈ s.insertedIds ∨ ns.any (relNode x) = true) ∧
      (ns.any (relNode x) = true →
        ∃ n, n ∈ ns ∧ relNode x n = true ∧
          alookup (ns.foldl (processNode false) s).table x = some n) ∧
      (ns.any (relNode x) = false →
        alookup (ns.foldl (processNode false) s).table x = alookup s.table x) ∧
      (alookup (ns.foldl (processNode false) s).loaders x).isSome = true
  | [], s, hld => by simp [hld]
  | n :: ns, s, hld => by
    by_cases hrel : relNode x n = true
    · have h1 := processNode_rel_live x s n hrel hx hld
      have h2 := foldN_live x hx ns (processNode false s n) h1.2.2.2
      simp only [List.foldl_cons]
      refine ⟨h2.1.trans h1.1, ?_, ?_, ?_, h2.2.2.2.2⟩
      · constructor
        · intro _
          right
          simp [List.any_cons, hrel]
        · intro _
          exact (h2.2.1).mpr (Or.inl h1.2.2.1)
      · intro _
        by_cases hany : ns.any (relNode x) = true
        · obtain ⟨n', hmem, hrel', htab⟩ := h2.2.2.1 hany
          exact ⟨n', List.mem_cons_of_mem _ hmem, hrel', htab⟩
        · refine ⟨n, List.mem_cons_self _ _, hrel, ?_⟩
          rw [h2.2.2.2.1 (by simpa using hany), h1.2.1]
      · intro hany
        simp [List.any_cons, hrel] at hany
    · have hrel' : relNode x n = false := by simpa using hrel
      have h1 := processNode_not_rel x false s n hrel'
      have h2 := foldN_live x hx ns (processNode false s n)
        (by rw [h1.2.2.2.2]; exact hld)
      simp only [List.foldl_cons]
      refine ⟨h2.1.trans h1.1, ?_, ?_, ?_, h2.2.2.2.2⟩
      · rw [List.any_cons, hrel']
        simpa [h1.2.2.2.1] using h2.2.1
      · intro hany
        rw [List.any_cons, hrel'] at hany
        obtain ⟨n', hmem, hrel2, htab⟩ := h2.2.2.1 (by simpa using hany)
        exact ⟨n', List.mem_cons_of_mem _ hmem, hrel2, htab⟩
      · intro hany
        rw [List.any_cons, hrel'] at hany
        rw [h2.2.2.2.1 (by simpa using hany), h1.2.2.1]

/-- Side-table entry at `x` after folding an item list: untouched, or
(for a live insertion) pointing at an `x`-relevant item of the list. -/
theorem foldN_table_cases (x : String) (g : Bool) :
    ∀ (ns : List MNode) (s : ProcState),
      alookup (ns.foldl (processNode g) s).table x = alookup s.table x ∨
      (g = false ∧ ∃ n, n ∈ ns ∧ relNode x n = true ∧
        alookup (ns.foldl (processNode g) s).table x = some n)
  | [], _ => Or.inl rfl
  | n :: ns, s => by
    simp only [List.foldl_cons]
    rcases foldN_table_cases x g ns (processNode g s n) with h | ⟨hg, n', hmem, hrel, htab⟩
    · rcases processNode_table_cases x g s n with h1 | ⟨hg, hrel, htab⟩
      · exact Or.inl (h.trans h1)
      · exact Or.inr ⟨hg, n, List.mem_cons_self _ _, hrel, h.trans htab⟩
    · exact Or.inr ⟨hg, n', List.mem_cons_of_mem _ hmem, hrel, htab⟩

/-- Folding an item list in which no item is `x`-relevant leaves every
`x`-indexed component unchanged. -/
theorem foldN_frame (x : String) (g : Bool) :
    ∀ (ns : List MNode) (s : ProcState), (∀ n ∈ ns, relNode x n = false) →
      (ns.foldl (processNode g) s).aborts.count x = s.aborts.count x ∧
      (ns.foldl (processNode g) s).started.count x = s.started.count x ∧
      alookup (ns.foldl (processNode g) s).table x = alookup s.table x ∧
      (x ∈ (ns.foldl (processNode g) s).insertedIds ↔ x ∈ s.insertedIds) ∧
      (alookup (ns.foldl (processNode g) s).loaders x).isSome
        = (alookup s.loaders x).isSome
  | [], s, _ => ⟨rfl, rfl, rfl, Iff.rfl, rfl⟩
  | n :: ns, s, hall => by
    have h1 := processNode_not_rel x g s n (hall n (List.mem_cons_self _ _))
    have h2 := foldN_frame x g ns (processNode g s n)
      (fun n' hm => hall n' (List.mem_cons_of_mem _ hm))
    simp only [List.foldl_cons]
    exact ⟨h2.1.trans h1.1, h2.2.1.trans h1.2.1, h2.2.2.1.trans h1.2.2.1,
      h2.2.2.2.1.trans h1.2.2.2.1, h2.2.2.2.2.trans h1.2.2.2.2⟩

/-! ### Entry and batch-level lemmas -/

/-- Processing any change entry keeps `x` in the re-inserted set and its
abort count. -/
theorem processEntry_inset (x : String) (s : ProcState) (e : ChangeEntry)
    (hin : x ∈ s.insertedIds) :
    (processEntry s e).aborts.count x = s.aborts.count x ∧
    x ∈ (processEntry s e).insertedIds := by
  unfold processEntry
  by_cases he : e.etype = EntryType.insert
  · simpa [he] using foldN_inset x e.inGraveyard e.items s hin
  · simp [he, hin]

/-- Side-table entry at `x` after one change entry: untouched, or pointing
at an `x`-relevant item of a live insertion of that entry. -/
theorem processEntry_table_cases (x : String) (s : ProcState) (e : ChangeEntry) :
    alookup (processEntry s e).table x = alookup s.table x ∨
    (e.etype = EntryType.insert ∧ e.inGraveyard = false ∧
      ∃ n, n ∈ e.items ∧ relNode x n = true ∧
        alookup (processEntry s e).table x = some n) := by
  unfold processEntry
  by_cases he : e.etype = EntryType.insert
  · rcases foldN_table_cases x e.inGraveyard e.items s with h | ⟨hg, n, hmem, hrel, htab⟩
    · simp [he, h]
    · right
      exact ⟨he, hg, n, hmem, hrel, by simpa [he] using htab⟩
  · simp [he]

/-- Entry-level frame: an entry none of whose items is `x`-relevant leaves
every `x`-indexed component unchanged. -/
theorem processEntry_frame (x : String) (s : ProcState) (e : ChangeEntry)
    (hall : ∀ n ∈ e.items, relNode x n = false) :
    (processEntry s e).aborts.count x = s.aborts.count x ∧
    (processEntry s e).started.count x = s.started.count x ∧
    alookup (processEntry s e).table x = alookup s.table x ∧
    (x ∈ (processEntry s e).insertedIds ↔ x ∈ s.insertedIds) ∧
    (alookup (processEntry s e).loaders x).isSome = (alookup s.loaders x).isSome := by
  unfold processEntry
  by_cases he : e.etype = EntryType.insert
  · simpa [he] using foldN_frame x e.inGraveyard e.items s hall
  · simp [he]

/-- Batch-level: once `x` is in the re-inserted set, the rest of the batch
keeps its abort count. -/
theorem foldE_inset (x : String) :
    ∀ (ds : List ChangeEntry) (s : ProcState), x ∈ s.insertedIds →
      (ds.foldl processEntry s).aborts.count x = s.aborts.count x ∧
      x ∈ (ds.foldl processEntry s).insertedIds
  | [], s, hin => ⟨rfl, hin⟩
  | e :: ds, s, hin => by
    have h1 := processEntry_inset x s e hin
    have h2 := foldE_inset x ds (processEntry s e) h1.2
    exact ⟨h2.1.trans h1.1, h2.2⟩

/-- Batch-level table cases: the final side-table entry at `x` is the
initial one, or points at an `x`-relevant item of some live insertion of
the batch. -/
theorem foldE_table_cases (x : String) :
    ∀ (ds : List ChangeEntry) (s : ProcState),
      alookup (ds.foldl processEntry s).table x = alookup s.table x ∨
      ∃ e, e ∈ ds ∧ e.etype = EntryType.insert ∧ e.inGraveyard = false ∧
        ∃ n, n ∈ e.items ∧ relNode x n = true ∧
          alookup (ds.foldl processEntry s).table x = some n
  | [], _ => Or.inl rfl
  | e :: ds, s => by
    simp only [List.foldl_cons]
    rcases foldE_table_cases x ds (processEntry s e) with h | ⟨e', hmem, he, hg, hrest⟩
    · rcases processEntry_table_cases x s e with h1 | ⟨he, hg, n, hmem, hrel, htab⟩
      · exact Or.inl (h.trans h1)
      · exact Or.inr ⟨e, List.mem_cons_self _ _, he, hg, n, hmem, hrel, h.trans htab⟩
    · exact Or.inr ⟨e', List.mem_cons_of_mem _ hmem, he, hg, hrest⟩

/-- Batch-level frame: a batch none of whose items is `x`-relevant leaves
every `x`-indexed component unchanged. -/
theorem foldE_frame (x : String) :
    ∀ (ds : List ChangeEntry) (s : ProcState),
      (∀ e ∈ ds, ∀ n ∈ e.items, relNode x n = false) →
      (ds.foldl processEntry s).aborts.count x = s.aborts.count x ∧
      (ds.foldl processEntry s).started.count x = s.started.count x ∧
      alookup (ds.foldl processEntry s).table x = alookup s.table x ∧
      (x ∈ (ds.foldl processEntry s).insertedIds ↔ x ∈ s.insertedIds) ∧
      (alookup (ds.foldl processEntry s).loaders x).isSome
        = (alookup s.loaders x).isSome
  | [], s, _ => ⟨rfl, rfl, rfl, Iff.rfl, rfl⟩
  | e :: ds, s, hall => by
    have h1 := processEntry_frame x s e (hall e (List.mem_cons_self _ _))
    have h2 := foldE_frame x ds (processEntry s e)
      (fun e' hm => hall e' (List.mem_cons_of_mem _ hm))
    simp only [List.foldl_cons]
    exact ⟨h2.1.trans h1.1, h2.2.1.trans h1.2.1, h2.2.2.1.trans h1.2.2.1,
      h2.2.2.2.1.trans h1.2.2.2.1, h2.2.2.2.2.trans h1.2.2.2.2⟩

theorem liveItems_cons (x : String) (e : ChangeEntry) (ds : List ChangeEntry) :
    liveItems x (e :: ds)
      = (if e.etype == EntryType.insert && !e.inGraveyard
          then e.items.filter (relNode x) else []) ++ liveItems x ds := by
  simp [liveItems]

theorem mem_liveItems (x : String) (n : MNode) (cs : List ChangeEntry) (e : ChangeEntry)
    (hmem : e ∈ cs) (he : e.etype = EntryType.insert) (hg : e.inGraveyard = false)
    (hn : n ∈ e.items) (hrel : relNode x n = true) : n ∈ liveItems x cs := by
  unfold liveItems
  refine List.mem_flatMap.mpr ⟨e, hmem, ?_⟩
  simp [he, hg, List.mem_filter, hn, hrel]

theorem gyRelCount_cons (x : String) (e : ChangeEntry) (ds : List ChangeEntry) :
    gyRelCount x (e :: ds)
      = (if e.etype == EntryType.insert && e.inGraveyard
          then (e.items.filter (relNode x)).length else 0) + gyRelCount x ds := by
  simp [gyRelCount]

theorem liveRelAny_cons (x : String) (e : ChangeEntry) (ds : List ChangeEntry) :
    liveRelAny x (e :: ds) = (liveRel x e || liveRelAny x ds) := by
  simp [liveRelAny]

/-- Engine lemma for the reconciliation claims, stated over the processing
order (the reversed differ output).  Provided every graveyard insertion
relevant to `x` is processed after every live insertion relevant to `x`
(the insertions-before-removals order the reversal is meant to supply), the
run aborts `x` once per relevant graveyard item when no live re-insertion
exists, and never aborts `x` — re-pointing the side-table to a live
re-inserted item instead — when one does. -/
theorem foldE_main (x : String) (hx : x ≠ "") :
    ∀ (ds : List ChangeEntry) (s : ProcState),
      (alookup s.loaders x).isSome = true →
      x ∉ s.insertedIds →
      ds.Pairwise (fun a b => gyRel x a = true → liveRel x b = true → False) →
      (liveRelAny x ds = false →
        (ds.foldl processEntry s).aborts.count x
          = s.aborts.count x + gyRelCount x ds) ∧
      (liveRelAny x ds = true →
        (ds.foldl processEntry s).aborts.count x = s.aborts.count x ∧
        ∃ n, n ∈ liveItems x ds ∧ relNode x n = true ∧
          alookup (ds.foldl processEntry s).table x = some n)
  | [], s, _, _, _ => by
    constructor
    · intro _
      simp [gyRelCount]
    · intro h
      simp [liveRelAny] at h
  | e :: ds, s, hld, hnin, hpw => by
    obtain ⟨hhead, htail⟩ := List.pairwise_cons.mp hpw
    by_cases he : e.etype = EntryType.insert
    · cases hgy : e.inGraveyard with
      | true =>
        have hliveE : liveRel x e = false := by simp [liveRel, hgy]
        have hfold : processEntry s e = e.items.foldl (processNode true) s := by
          simp [processEntry, he, hgy]
        have h1 := foldN_gy x hx e.items s hld hnin
        rw [← hfold] at h1
        by_cases hany : e.items.any (relNode x) = true
        · have hgyE : gyRel x e = true := by simp [gyRel, he, hgy, hany]
          have hlivetail : liveRelAny x ds = false := by
            rw [liveRelAny]
            apply List.any_eq_false.mpr
            intro b hb
            intro hc
            exact hhead b hb hgyE hc
          have ih := foldE_main x hx ds (processEntry s e)
            h1.2.2.2.2 h1.2.2.2.1 htail
          constructor
          · intro _
            simp only [List.foldl_cons]
            rw [ih.1 hlivetail, h1.1, gyRelCount_cons]
            simp [he, hgy, Nat.add_comm, Nat.add_assoc, Nat.add_left_comm]
          · intro hc
            rw [liveRelAny_cons, hliveE, hlivetail] at hc
            simp at hc
        · have hanyf : e.items.any (relNode x) = false := by simpa using hany
          have hfilnil : e.items.filter (relNode x) = [] := by
            apply List.filter_eq_nil_iff.mpr
            intro a ha hc
            have := List.any_eq_false.mp hanyf a ha
            simp [hc] at this
          have ih := foldE_main x hx ds (processEntry s e)
            h1.2.2.2.2 h1.2.2.2.1 htail
          constructor
          · intro hlive
            rw [liveRelAny_cons, hliveE] at hlive
            simp only [List.foldl_cons]
            rw [ih.1 (by simpa using hlive), h1.1, gyRelCount_cons, hfilnil]
            simp [he, hgy, Nat.add_comm, Nat.add_assoc, Nat.add_left_comm]
          · intro hlive
            rw [liveRelAny_cons, hliveE] at hlive
            have h2 := ih.2 (by simpa using hlive)
            obtain ⟨n, hmem, hrel, htab⟩ := h2.2
            have hcnt : (processEntry s e).aborts.count x = s.aborts.count x := by
              rw [h1.1, hfilnil]
              simp
            refine ⟨by simpa only [List.foldl_cons] using (h2.1.trans hcnt), n, ?_, hrel,
              by simpa only [List.foldl_cons] using htab⟩
            rw [liveItems_cons]
            exact List.mem_append_right _ hmem
      | false =>
        have hgyE : gyRel x e = false := by simp [gyRel, hgy]
        have hfold : processEntry s e = e.items.foldl (processNode false) s := by
          simp [processEntry, he, hgy]
        have h1 := foldN_live x hx e.items s hld
        rw [← hfold] at h1
        by_cases hany : e.items.any (relNode x) = true
        · have hliveE : liveRel x e = true := by simp [liveRel, he, hgy, hany]
          have hin' : x ∈ (processEntry s e).insertedIds :=
            (h1.2.1).mpr (Or.inr hany)
          have h2 := foldE_inset x ds (processEntry s e) hin'
          constructor
          · intro hc
            rw [liveRelAny_cons, hliveE] at hc
            simp at hc
          · intro _
            obtain ⟨n₀, hn₀mem, hn₀rel, hn₀tab⟩ := h1.2.2.1 hany
            refine ⟨by simpa only [List.foldl_cons] using (h2.1.trans h1.1), ?_⟩
            rcases foldE_table_cases x ds (processEntry s e)
              with htc | ⟨e', hmem', he', hg', n', hnmem', hnrel', hntab'⟩
            · exact ⟨n₀, mem_liveItems x n₀ (e :: ds) e (List.mem_cons_self _ _)
                he hgy hn₀mem hn₀rel, hn₀rel,
                by simpa only [List.foldl_cons] using (htc.trans hn₀tab)⟩
            · exact ⟨n', mem_liveItems x n' (e :: ds) e' (List.mem_cons_of_mem _ hmem')
                he' hg' hnmem' hnrel', hnrel',
                by simpa only [List.foldl_cons] using hntab'⟩
        · have hanyf : e.items.any (relNode x) = false := by simpa using hany
          have hliveE : liveRel x e = false := by simp [liveRel, hanyf]
          have hnin' : x ∉ (processEntry s e).insertedIds := by
            intro hc
            rcases (h1.2.1).mp hc with hc' | hc'
            · exact hnin hc'
            · rw [hanyf] at hc'
              cases hc'
          have ih := foldE_main x hx ds (processEntry s e)
            h1.2.2.2.2 hnin' htail
          have htabE := h1.2.2.2.1 hanyf
          constructor
          · intro hlive
            rw [liveRelAny_cons, hliveE] at hlive
            simp only [List.foldl_cons]
            rw [ih.1 (by simpa using hlive), h1.1, gyRelCount_cons]
            simp [hgy]
          · intro hlive
            rw [liveRelAny_cons, hliveE] at hlive
            have h2 := ih.2 (by simpa using hlive)
            obtain ⟨n, hmem, hrel, htab⟩ := h2.2
            refine ⟨by simpa only [List.foldl_cons] using (h2.1.trans h1.1), n, ?_, hrel,
              by simpa only [List.foldl_cons] using htab⟩
            rw [liveItems_cons]
            exact List.mem_append_right _ hmem
    · have hliveE : liveRel x e = false := by simp [liveRel, he]
      have hgyE : gyRel x e = false := by simp [gyRel, he]
      have hfold : processEntry s e = s := by simp [processEntry, he]
      have ih := foldE_main x hx ds (processEntry s e)
        (by rw [hfold]; exact hld) (by rw [hfold]; exact hnin) htail
      rw [hfold] at ih
      constructor
      · intro hlive
        rw [liveRelAny_cons, hliveE] at hlive
        simp only [List.foldl_cons, hfold]
        rw [ih.1 (by simpa using hlive), gyRelCount_cons]
        simp [he]
      · intro hlive
        rw [liveRelAny_cons, hliveE] at hlive
        have h2 := ih.2 (by simpa using hlive)
        obtain ⟨n, hmem, hrel, htab⟩ := h2.2
        refine ⟨by simpa only [List.foldl_cons, hfold] using h2.1, n, ?_, hrel,
          by simpa only [List.foldl_cons, hfold] using htab⟩
        rw [liveItems_cons]
        exact List.mem_append_right _ hmem

/-! ### Transport along the handler's `.reverse()` -/

theorem gyRelCount_reverse (x : String) (cs : List ChangeEntry) :
    gyRelCount x cs.reverse = gyRelCount x cs := by
  unfold gyRelCount
  rw [List.map_reverse, List.sum_reverse]

theorem liveRelAny_reverse (x : String) (cs : List ChangeEntry) :
    liveRelAny x cs.reverse = liveRelAny x cs := by
  unfold liveRelAny
  rcases hany : cs.any (liveRel x) with _ | _
  · apply List.any_eq_false.mpr
    intro e he hc
    exact (List.any_eq_false.mp hany e (List.mem_reverse.mp he)) hc
  · obtain ⟨e, he, hrel⟩ := List.any_eq_true.mp hany
    exact List.any_eq_true.mpr ⟨e, List.mem_reverse.mpr he, hrel⟩

theorem mem_liveItems_reverse (x : String) (n : MNode) (cs : List ChangeEntry)
    (h : n ∈ liveItems x cs.reverse) : n ∈ liveItems x cs := by
  unfold liveItems at h ⊢
  obtain ⟨e, he, hn⟩ := List.mem_flatMap.mp h
  exact List.mem_flatMap.mpr ⟨e, List.mem_reverse.mp he, hn⟩

/-! ### Claim theorems for the reconciliation pass -/

/-- C1: in a reconciliation run over a change batch, a task whose id `x`
appears on exactly one `linkHref`-bearing node inserted into the graveyard
(its loader being known to the repository, and the batch listing — as the
differ does — graveyard insertions before the live insertions that replace
them) is aborted exactly once if and only if no node bearing `x` was
inserted into live content in the same batch; when such a live insertion
exists, no abort happens at all and the side-table entry for `x` is merely
re-pointed to a live-inserted node bearing `x`. -/
theorem reconcile_abort_iff_no_live_reinsertion
    (loaders : List (String × LStatus)) (table : List (String × MNode))
    (cs : List ChangeEntry) (x : String)
    (hx : x ≠ "")
    (hld : (alookup loaders x).isSome = true)
    (hgy : gyRelCount x cs = 1)
    (hord : cs.Pairwise (fun a b => liveRel x a = true → gyRel x b = true → False)) :
    ((runBatch loaders table cs).aborts.count x = 1 ↔ liveRelAny x cs = false) ∧
    (liveRelAny x cs = true →
      (runBatch loaders table cs).aborts.count x = 0 ∧
      ∃ n, n ∈ liveItems x cs ∧ relNode x n = true ∧
        alookup (runBatch loaders table cs).table x = some n) := by
  have hpw : (cs.reverse).Pairwise
      (fun a b => gyRel x a = true → liveRel x b = true → False) := by
    rw [List.pairwise_reverse]
    exact hord.imp (fun h hg hl => h hl hg)
  have hmain := foldE_main x hx cs.reverse
    { loaders := loaders, table := table, insertedIds := [], aborts := [], started := [] }
    hld (by simp) hpw
  have hrun : runBatch loaders table cs = (cs.reverse).foldl processEntry
      { loaders := loaders, table := table, insertedIds := [], aborts := [],
        started := [] } := rfl
  constructor
  · constructor
    · intro hcount
      rcases hlive : liveRelAny x cs with _ | _
      · rfl
      · have h2 := hmain.2 (by rw [liveRelAny_reverse]; exact hlive)
        rw [← hrun] at h2
        simp at h2
        rw [h2.1] at hcount
        cases hcount
    · intro hlive
      have h1 := hmain.1 (by rw [liveRelAny_reverse]; exact hlive)
      rw [← hrun] at h1
      rw [h1, gyRelCount_reverse, hgy]
      simp
  · intro hlive
    have h2 := hmain.2 (by rw [liveRelAny_reverse]; exact hlive)
    rw [← hrun] at h2
    obtain ⟨n, hmem, hrel, htab⟩ := h2.2
    refine ⟨by simpa using h2.1, n, mem_liveItems_reverse x n cs hmem, hrel, htab⟩

/-- Witness for C1: a batch that discards the single anchor of id `u1`
(graveyard insertion, no live replacement) aborts it exactly once, and a
batch that relocates it (graveyard insertion followed by a live insertion
of the same id) never aborts it and re-points its side-table entry. -/
theorem reconcile_abort_iff_no_live_reinsertion_witness :
    ((runBatch [("u1", LStatus.uploading)] []
        [⟨EntryType.insert, true, [⟨some "u1", true⟩]⟩,
         ⟨EntryType.insert, false, [⟨some "u1", true⟩]⟩]).aborts.count "u1" = 1
      ↔ liveRelAny "u1"
        [⟨EntryType.insert, true, [⟨some "u1", true⟩]⟩,
         ⟨EntryType.insert, false, [⟨some "u1", true⟩]⟩] = false) ∧
    (liveRelAny "u1"
        [⟨EntryType.insert, true, [⟨some "u1", true⟩]⟩,
         ⟨EntryType.insert, false, [⟨some "u1", true⟩]⟩] = true →
      (runBatch [("u1", LStatus.uploading)] []
        [⟨EntryType.insert, true, [⟨some "u1", true⟩]⟩,
         ⟨EntryType.insert, false, [⟨some "u1", true⟩]⟩]).aborts.count "u1" = 0 ∧
      ∃ n, n ∈ liveItems "u1"
        [⟨EntryType.insert, true, [⟨some "u1", true⟩]⟩,
         ⟨EntryType.insert, false, [⟨some "u1", true⟩]⟩] ∧ relNode "u1" n = true ∧
        alookup (runBatch [("u1", LStatus.uploading)] []
          [⟨EntryType.insert, true, [⟨some "u1", true⟩]⟩,
           ⟨EntryType.insert, false, [⟨some "u1", true⟩]⟩]).table "u1" = some n) :=
  reconcile_abort_iff_no_live_reinsertion
    [("u1", LStatus.uploading)] []
    [⟨EntryType.insert, true, [⟨some "u1", true⟩]⟩,
     ⟨EntryType.insert, false, [⟨some "u1", true⟩]⟩] "u1"
    (by decide) (by decide) (by decide) (by decide)

/-- C10: a change batch none of whose `uploadId = x` nodes carries a
`linkHref` attribute never aborts the task `x`, never starts its upload,
and leaves its side-table entry exactly as before — even when such nodes
land in the graveyard; moreover every side-table entry after the run is
either a pre-existing one or points at a node that carried `linkHref` when
it was mapped. -/
theorem reconcile_ignores_nodes_without_linkHref
    (loaders : List (String × LStatus)) (table : List (String × MNode))
    (cs : List ChangeEntry) (x : String)
    (hall : ∀ e ∈ cs, ∀ n ∈ e.items, n.uploadId = some x → n.hasLinkHref = false) :
    (runBatch loaders table cs).aborts.count x = 0 ∧
    (runBatch loaders table cs).started.count x = 0 ∧
    alookup (runBatch loaders table cs).table x = alookup table x ∧
    (∀ y m, alookup (runBatch loaders table cs).table y = some m →
      alookup table y = some m ∨ m.hasLinkHref = true) := by
  have hrel : ∀ e ∈ cs.reverse, ∀ n ∈ e.items, relNode x n = false := by
    intro e he n hn
    rcases hid : n.uploadId with _ | uid
    · simp [relNode, hid]
    · by_cases hxu : uid = x
      · subst hxu
        have := hall e (List.mem_reverse.mp he) n hn hid
        simp [relNode, this]
      · simp [relNode, hid, hxu]
  have hframe := foldE_frame x cs.reverse
    { loaders := loaders, table := table, insertedIds := [], aborts := [], started := [] }
    hrel
  have hrun : runBatch loaders table cs = (cs.reverse).foldl processEntry
      { loaders := loaders, table := table, insertedIds := [], aborts := [],
        started := [] } := rfl
  rw [← hrun] at hframe
  refine ⟨by simpa using hframe.1, by simpa using hframe.2.1, hframe.2.2.1, ?_⟩
  intro y m hm
  rcases foldE_table_cases y cs.reverse
      { loaders := loaders, table := table, insertedIds := [], aborts := [],
        started := [] } with htc | ⟨e, _, _, _, n, _, hnrel, htab⟩
  · rw [← hrun] at htc
    left
    rw [← htc]
    exact hm
  · rw [← hrun] at htab
    right
    rw [htab] at hm
    have hmn : n = m := by injection hm
    rw [← hmn]
    exact ((relNode_iff y n).mp hnrel).1

/-- Witness for C10: a batch that inserts a node of id `u2` without
`linkHref` into live content and then discards a like node into the
graveyard leaves the task `u2` unaborted, unstarted and unmapped. -/
theorem reconcile_ignores_nodes_without_linkHref_witness :
    (runBatch [("u2", LStatus.idle)] []
      [⟨EntryType.insert, false, [⟨some "u2", false⟩]⟩,
       ⟨EntryType.insert, true, [⟨some "u2", false⟩]⟩]).aborts.count "u2" = 0 ∧
    (runBatch [("u2", LStatus.idle)] []
      [⟨EntryType.insert, false, [⟨some "u2", false⟩]⟩,
       ⟨EntryType.insert, true, [⟨some "u2", false⟩]⟩]).started.count "u2" = 0 ∧
    alookup (runBatch [("u2", LStatus.idle)] []
      [⟨EntryType.insert, false, [⟨some "u2", false⟩]⟩,
       ⟨EntryType.insert, true, [⟨some "u2", false⟩]⟩]).table "u2"
      = alookup [] "u2" ∧
    (∀ y m, alookup (runBatch [("u2", LStatus.idle)] []
      [⟨EntryType.insert, false, [⟨some "u2", false⟩]⟩,
       ⟨EntryType.insert, true, [⟨some "u2", false⟩]⟩]).table y = some m →
      alookup [] y = some m ∨ m.hasLinkHref = true) :=
  reconcile_ignores_nodes_without_linkHref
    [("u2", LStatus.idle)] []
    [⟨EntryType.insert, false, [⟨some "u2", false⟩]⟩,
     ⟨EntryType.insert, true, [⟨some "u2", false⟩]⟩] "u2"
    (by decide)

/-! ### Claim theorems for `_readAndUpload` -/

/-- C2: on a successful read→upload run the coordinator writes the
`uploadStatus` values `reading`, `uploading`, `complete` in exactly that
order and exactly once each, each write targeting the element the
side-table maps the task to at that moment; on the complete transition the
order of side effects is: the `complete` status write, then the
`uploadComplete` event carrying the adapter's payload and the current
anchor, and only then the stripping of `uploadId`/`uploadStatus` and the
release of the task. -/
theorem readAndUpload_success_transition_order (id payload : String) (t : Table)
    (env1 env2 : Table → Table) :
    ((readAndUploadSuccess id payload t env1 env2).2.filterMap
        (fun e => match e with | Effect.setStatus _ v => some v | _ => none))
      = ["reading", "uploading", "complete"] ∧
    (readAndUploadSuccess id payload t env1 env2).2.get? 0
      = some (Effect.setStatus (lookupElem t id) "reading") ∧
    (readAndUploadSuccess id payload t env1 env2).2.get? 1
      = some (Effect.setStatus (lookupElem (env1 t) id) "uploading") ∧
    (readAndUploadSuccess id payload t env1 env2).2.get? 2
      = some (Effect.setStatus (lookupElem (env2 (env1 t)) id) "complete") ∧
    (readAndUploadSuccess id payload t env1 env2).2.get? 3
      = some (Effect.fireComplete (lookupElem (env2 (env1 t)) id) payload) ∧
    (readAndUploadSuccess id payload t env1 env2).2.countP
        (fun e => match e with | Effect.fireComplete _ _ => true | _ => false) = 1 ∧
    (readAndUploadSuccess id payload t env1 env2).2.findIdx
        (fun e => match e with | Effect.setStatus _ v => v == "complete" | _ => false)
      < (readAndUploadSuccess id payload t env1 env2).2.findIdx
        (fun e => match e with | Effect.fireComplete _ _ => true | _ => false) ∧
    (readAndUploadSuccess id payload t env1 env2).2.findIdx
        (fun e => match e with | Effect.fireComplete _ _ => true | _ => false)
      < (readAndUploadSuccess id payload t env1 env2).2.findIdx
        (fun e => match e with | Effect.removeAttr _ a => a == "uploadId" | _ => false) ∧
    (readAndUploadSuccess id payload t env1 env2).2.findIdx
        (fun e => match e with | Effect.removeAttr _ a => a == "uploadId" | _ => false)
      < (readAndUploadSuccess id payload t env1 env2).2.findIdx
        (fun e => match e with | Effect.destroy _ => true | _ => false) :=
  ⟨rfl, rfl, rfl, rfl, rfl, rfl,
   by show 2 < 3; decide, by show 3 < 4; decide, by show 4 < 6; decide⟩

/-- C3 counterexample: the claim asserts that a rejection with loader
status `error` always shows a user-visible warning, but when the rejection
value is falsy (`none`) the guard `loader.status == 'error' && error`
suppresses the warning: this concrete run succeeds with zero warning
effects in its trace. -/
theorem readAndUpload_error_falsy_no_warning_cex :
    (readAndUploadCatch "u1" "error" none [("u1", "e1")]).toOption.map
        (fun p => p.2.countP
          (fun e => match e with | Effect.warn _ => true | _ => false))
      = some 0 := rfl

/-- C3 (amended): when the read/upload chain rejects, a loader status other
than `error`/`aborted` re-throws the rejection unchanged (never swallowed);
status `error` with a truthy rejection value shows exactly one warning and
removes the anchor; status `aborted` shows no warning; and status `error`
with a falsy rejection value shows no warning but still removes the
anchor.  In every non-rethrow case the anchor is removed and the task
released. -/
theorem readAndUpload_catch_semantics (id : String) (err : Option String)
    (m : String) (t : Table) :
    (∀ status, status ≠ "error" → status ≠ "aborted" →
      readAndUploadCatch id status err t = Except.error err) ∧
    readAndUploadCatch id "error" (some m) t
      = Except.ok (aerase t id,
          [Effect.warn m, Effect.removeNode (lookupElem t id),
           Effect.removeAttr (lookupElem t id) "uploadId",
           Effect.removeAttr (lookupElem t id) "uploadStatus",
           Effect.destroy id]) ∧
    readAndUploadCatch id "aborted" err t
      = Except.ok (aerase t id,
          [Effect.removeNode (lookupElem t id),
           Effect.removeAttr (lookupElem t id) "uploadId",
           Effect.removeAttr (lookupElem t id) "uploadStatus",
           Effect.destroy id]) ∧
    readAndUploadCatch id "error" none t
      = Except.ok (aerase t id,
          [Effect.removeNode (lookupElem t id),
           Effect.removeAttr (lookupElem t id) "uploadId",
           Effect.removeAttr (lookupElem t id) "uploadStatus",
           Effect.destroy id]) := by
  refine ⟨?_, ?_, ?_, ?_⟩
  · intro status h1 h2
    simp [readAndUploadCatch, h1, h2]
  · simp [readAndUploadCatch, cleanRun]
  · cases err with
    | none => simp [readAndUploadCatch, cleanRun]
    | some m' => simp [readAndUploadCatch, cleanRun]
  · simp [readAndUploadCatch, cleanRun]

/-- Witness for C3: the amended catch semantics evaluated at concrete
inputs, the re-throw conjunct instantiated at status `uploading`. -/
theorem readAndUpload_catch_semantics_witness :
    readAndUploadCatch "u9" "uploading" (some "boom") [("u9", "e9")]
      = Except.error (some "boom") ∧
    readAndUploadCatch "u9" "error" (some "boom") [("u9", "e9")]
      = Except.ok (aerase [("u9", "e9")] "u9",
          [Effect.warn "boom", Effect.removeNode (lookupElem [("u9", "e9")] "u9"),
           Effect.removeAttr (lookupElem [("u9", "e9")] "u9") "uploadId",
           Effect.removeAttr (lookupElem [("u9", "e9")] "u9") "uploadStatus",
           Effect.destroy "u9"]) ∧
    readAndUploadCatch "u9" "aborted" (some "boom") [("u9", "e9")]
      = Except.ok (aerase [("u9", "e9")] "u9",
          [Effect.removeNode (lookupElem [("u9", "e9")] "u9"),
           Effect.removeAttr (lookupElem [("u9", "e9")] "u9") "uploadId",
           Effect.removeAttr (lookupElem [("u9", "e9")] "u9") "uploadStatus",
           Effect.destroy "u9"]) ∧
    readAndUploadCatch "u9" "error" none [("u9", "e9")]
      = Except.ok (aerase [("u9", "e9")] "u9",
          [Effect.removeNode (lookupElem [("u9", "e9")] "u9"),
           Effect.removeAttr (lookupElem [("u9", "e9")] "u9") "uploadId",
           Effect.removeAttr (lookupElem [("u9", "e9")] "u9") "uploadStatus",
           Effect.destroy "u9"]) := by
  have h := readAndUpload_catch_semantics "u9" (some "boom") "boom" [("u9", "e9")]
  exact ⟨h.1 "uploading" (by decide) (by decide), h.2.1, h.2.2.1, h.2.2.2⟩

/-- C4: after either terminal outcome — the success path (`complete`) or a
caught rejection with loader status `error` or `aborted` — the side-table
no longer contains the task id and the trace contains exactly one
`destroyLoader` call for it. -/
theorem terminal_state_releases_task (id payload status : String)
    (err : Option String) (t : Table) (env1 env2 : Table → Table)
    (hstatus : status = "error" ∨ status = "aborted") :
    (alookup (readAndUploadSuccess id payload t env1 env2).1 id = none ∧
      (readAndUploadSuccess id payload t env1 env2).2.count (Effect.destroy id) = 1) ∧
    ∃ t2 tr, readAndUploadCatch id status err t = Except.ok (t2, tr) ∧
      alookup t2 id = none ∧ tr.count (Effect.destroy id) = 1 := by
  constructor
  · constructor
    · simp [readAndUploadSuccess, cleanRun, alookup_aerase_self]
    · simp [readAndUploadSuccess, cleanRun, List.count_cons, List.count_nil]
  · rcases hstatus with h | h
    · subst h
      cases err with
      | none =>
        refine ⟨aerase t id,
          [Effect.removeNode (lookupElem t id),
           Effect.removeAttr (lookupElem t id) "uploadId",
           Effect.removeAttr (lookupElem t id) "uploadStatus",
           Effect.destroy id],
          by simp [readAndUploadCatch, cleanRun], alookup_aerase_self t id, ?_⟩
        simp [List.count_cons, List.count_nil]
      | some m =>
        refine ⟨aerase t id,
          [Effect.warn m, Effect.removeNode (lookupElem t id),
           Effect.removeAttr (lookupElem t id) "uploadId",
           Effect.removeAttr (lookupElem t id) "uploadStatus",
           Effect.destroy id],
          by simp [readAndUploadCatch, cleanRun], alookup_aerase_self t id, ?_⟩
        simp [List.count_cons, List.count_nil]
    · subst h
      cases err with
      | none =>
        refine ⟨aerase t id,
          [Effect.removeNode (lookupElem t id),
           Effect.removeAttr (lookupElem t id) "uploadId",
           Effect.removeAttr (lookupElem t id) "uploadStatus",
           Effect.destroy id],
          by simp [readAndUploadCatch, cleanRun], alookup_aerase_self t id, ?_⟩
        simp [List.count_cons, List.count_nil]
      | some m =>
        refine ⟨aerase t id,
          [Effect.removeNode (lookupElem t id),
           Effect.removeAttr (lookupElem t id) "uploadId",
           Effect.removeAttr (lookupElem t id) "uploadStatus",
           Effect.destroy id],
          by simp [readAndUploadCatch, cleanRun], alookup_aerase_self t id, ?_⟩
        simp [List.count_cons, List.count_nil]

/-- Witness for C4: the release property evaluated for task `u4` on the
success path and on an `error` rejection. -/
theorem terminal_state_releases_task_witness :
    (alookup (readAndUploadSuccess "u4" "resp" [("u4", "e4")] id id).1 "u4" = none ∧
      (readAndUploadSuccess "u4" "resp" [("u4", "e4")] id id).2.count
        (Effect.destroy "u4") = 1) ∧
    ∃ t2 tr, readAndUploadCatch "u4" "error" (some "oops") [("u4", "e4")]
        = Except.ok (t2, tr) ∧
      alookup t2 "u4" = none ∧ tr.count (Effect.destroy "u4") = 1 :=
  terminal_state_releases_task "u4" "resp" "error" (some "oops")
    [("u4", "e4")] id id (Or.inl rfl)

/-- C7 counterexample: the claim asserts that the transition to `aborted`
performs no node removal and no attribute write, but the catch path runs
the removal and the attribute stripping unconditionally: this concrete
aborted run carries one `removeNode` and two `removeAttr` effects. -/
theorem abort_performs_document_mutation_cex :
    (readAndUploadCatch "u3" "aborted" (some "cancel") [("u3", "e3")]).toOption.map
        (fun p =>
          (p.2.countP (fun e => match e with | Effect.removeNode _ => true | _ => false),
           p.2.countP (fun e => match e with | Effect.removeAttr _ _ => true | _ => false)))
      = some (1, 2) := rfl

/-- C7 (amended): on a rejection with loader status `aborted` the
coordinator shows no user-visible warning, but it does mutate the document:
it removes the element the side-table still maps the task to (by then
residing in the graveyard) and strips `uploadId`/`uploadStatus` from it;
it then releases the task (side-table entry deleted, loader destroyed
once). -/
theorem abort_no_warning_removes_and_releases (id : String) (err : Option String)
    (t : Table) :
    readAndUploadCatch id "aborted" err t
      = Except.ok (aerase t id,
          [Effect.removeNode (lookupElem t id),
           Effect.removeAttr (lookupElem t id) "uploadId",
           Effect.removeAttr (lookupElem t id) "uploadStatus",
           Effect.destroy id]) ∧
    alookup (aerase t id) id = none := by
  constructor
  · cases err with
    | none => simp [readAndUploadCatch, cleanRun]
    | some m => simp [readAndUploadCatch, cleanRun]
  · exact alookup_aerase_self t id

/-! ### Claim theorem for the MIME/type matcher -/

/-- C5 (code bug): the claim — and the specification's normative
requirement — is anchored exact matching with an everything-rejecting
predicate when all tokens drop; the built pattern
`'^' + names.join( '|' ) + '$'` instead anchors only the first and last
alternatives.  With tokens `png, jpeg` (resolving to `image/png` and
`image/jpeg`) the predicate accepts the non-member strings `image/pngX`
(prefix match) and `Ximage/jpeg` (suffix match), and with no resolvable
token the pattern `^$` accepts the empty observed type. -/
theorem fileTypeTest_not_anchored_cex :
    resolvedFileTypes ["png", "jpeg"] = ["image/png", "image/jpeg"] ∧
    fileTypeTest ["png", "jpeg"] "image/pngX" = true ∧
    "image/pngX" ∉ resolvedFileTypes ["png", "jpeg"] ∧
    fileTypeTest ["png", "jpeg"] "Ximage/jpeg" = true ∧
    "Ximage/jpeg" ∉ resolvedFileTypes ["png", "jpeg"] ∧
    resolvedFileTypes ["zzz"] = [] ∧
    fileTypeTest ["zzz"] "" = true := by
  refine ⟨rfl, rfl, by decide, rfl, by decide, rfl, rfl⟩

/-! ### Claim theorems for the local-file fetcher -/

theorem dataUriMatchAt_ne_nil (cs l : List Char) (h : dataUriMatchAt cs = some l) :
    l ≠ [] := by
  unfold dataUriMatchAt at h
  by_cases hp : ("data:image/".toList).isPrefixOf cs
  · rw [if_pos hp] at h
    by_cases hw : (cs.drop 11).takeWhile isWordChar ≠ [] ∧
        (";base64".toList).isPrefixOf
          ((cs.drop 11).drop ((cs.drop 11).takeWhile isWordChar).length)
    · rw [if_pos hw] at h
      cases h
      simp
    · rw [if_neg hw] at h
      cases h
  · rw [if_neg hp] at h
    cases h

theorem dataUriSearchAux_ne_nil :
    ∀ (cs l : List Char), dataUriSearchAux cs = some l → l ≠ []
  | [], l, h => by cases h
  | c :: cs, l, h => by
    unfold dataUriSearchAux at h
    cases hm : dataUriMatchAt (c :: cs) with
    | some g =>
      rw [hm] at h
      cases h
      exact dataUriMatchAt_ne_nil _ _ hm
    | none =>
      rw [hm] at h
      exact dataUriSearchAux_ne_nil cs l h

/-- C8: the fetcher resolves the MIME type in this order: a truthy blob
content type wins; otherwise the type captured from the `data:` URI
pattern of the source (lowercased) is used; if neither yields a type the
resolution — and with it the whole fetch — fails with the
mime-type-unresolved error, and a fetch can never resolve to a file record
with an empty type. -/
theorem getFileMimeType_resolution_order (blobType src m : String)
    (outcome : FetchOutcome) :
    (blobType ≠ "" → getFileMimeType blobType src = Except.ok blobType) ∧
    (dataUriSearch src = some m →
      getFileMimeType "" src = Except.ok (jsToLower m)) ∧
    (dataUriSearch src = none →
      getFileMimeType "" src
        = Except.error "Failed to determine mime type for file.") ∧
    (∀ f, fetchLocalFile src outcome = Except.ok f → f.type ≠ "") := by
  refine ⟨?_, ?_, ?_, ?_⟩
  · intro h
    simp [getFileMimeType, h]
  · intro h
    simp [getFileMimeType, h]
  · intro h
    simp [getFileMimeType, h]
  · intro f hf
    cases outcome with
    | fail err => cases hf
    | ok bt =>
      cases hmt : getFileMimeType bt src with
      | error e => simp [fetchLocalFile, hmt] at hf
      | ok mt =>
        simp [fetchLocalFile, hmt] at hf
        rw [← hf]
        show mt ≠ ""
        unfold getFileMimeType at hmt
        by_cases hbt : bt ≠ ""
        · rw [if_pos hbt] at hmt
          cases hmt
          exact hbt
        · rw [if_neg hbt] at hmt
          cases hds : dataUriSearch src with
          | none => rw [hds] at hmt; cases hmt
          | some g =>
            rw [hds] at hmt
            cases hmt
            unfold dataUriSearch at hds
            cases haux : dataUriSearchAux src.toList with
            | none => rw [haux] at hds; cases hds
            | some l =>
              rw [haux] at hds
              cases hds
              have hne := dataUriSearchAux_ne_nil _ _ haux
              intro hc
              unfold jsToLower at hc
              have : l.map Char.toLower = [] := by
                have := congrArg String.data hc
                simpa using this
              exact hne (List.map_eq_nil_iff.mp this)

/-- Witness for C8: the resolution order evaluated at concrete inputs —
a truthy blob type wins; an empty blob type falls back to the lowercased
`data:` URI capture; a blob URI with no parsable prefix fails; the
materialized file of a successful fetch carries a non-empty type. -/
theorem getFileMimeType_resolution_order_witness :
    getFileMimeType "application/pdf" "data:image/PNG;base64,x"
      = Except.ok "application/pdf" ∧
    getFileMimeType "" "data:image/PNG;base64,x"
      = Except.ok (jsToLower "image/PNG") ∧
    getFileMimeType "" "blob:http://host/id"
      = Except.error "Failed to determine mime type for file." ∧
    ({ name := "file.image/png", type := "image/png" } : JsFile).type ≠ "" := by
  have h1 := getFileMimeType_resolution_order "application/pdf"
    "data:image/PNG;base64,x" "image/PNG" (FetchOutcome.ok "")
  have h2 := getFileMimeType_resolution_order "" "blob:http://host/id" ""
    (FetchOutcome.ok "")
  have h3 := getFileMimeType_resolution_order "" "data:image/png;base64,b" "image/png"
    (FetchOutcome.ok "")
  exact ⟨h1.1 (by decide), h1.2.1 (by decide), h2.2.2.1 (by decide),
    h3.2.2.2 { name := "file.image/png", type := "image/png" } rfl⟩

/-! ### Claim theorems for the progress presentation adapter -/

/-- C9 counterexample: the claim asserts that applying the same
`uploadStatus` twice to the same view figure yields the decoration state of
a single application; but `_showProgressBar` has no presence guard, so a
second `uploading` application appends a second progress bar. -/
theorem uploadStatusChange_duplicate_decoration_cex :
    uploadStatusChange true true (some "uploading") true
        (uploadStatusChange true true (some "uploading") true ⟨[], []⟩)
      = ⟨["ck-appear"], [ViewChild.progressBar, ViewChild.progressBar]⟩ ∧
    uploadStatusChange true true (some "uploading") true ⟨[], []⟩
      = ⟨["ck-appear"], [ViewChild.progressBar]⟩ := by
  exact ⟨rfl, rfl⟩

/-- C9 (amended): the handler writes only to the view figure; a delivery
whose consumable was already consumed is a no-op; the `reading` update is
idempotent (the appear class is guarded by a presence check); but the
`uploading` and `complete` updates carry no such guard, so re-applying them
to the same figure appends a duplicate progress bar or completion glyph. -/
theorem uploadStatusChange_amended_idempotence (hasU lp : Bool)
    (nv : Option String) (f : ViewFigure) :
    uploadStatusChange false hasU nv lp f = f ∧
    uploadStatusChange true true (some "reading") lp
        (uploadStatusChange true true (some "reading") lp f)
      = uploadStatusChange true true (some "reading") lp f ∧
    (uploadStatusChange true true (some "complete") true
        (uploadStatusChange true true (some "complete") true ⟨[], []⟩)).children
      = [ViewChild.completeIcon, ViewChild.completeIcon] := by
  refine ⟨rfl, ?_, rfl⟩
  show startAppearEffect (startAppearEffect f) = startAppearEffect f
  unfold startAppearEffect
  by_cases h : "ck-appear" ∈ f.classes
  · simp [h]
  · simp [h]

/-! ### Lookup lemmas for the attribute-merging pipeline -/

theorem alookup_spreadMerge (b : Attrs) (k : String) :
    ∀ (a : Attrs), alookup (spreadMerge a b) k
      = match alookup b k with
        | some v => some v
        | none => alookup a k := by
  intro a
  induction a with
  | nil =>
    cases h : alookup b k with
    | none => simp [spreadMerge, alookup, h]
    | some v => simp [spreadMerge, alookup, h]
  | cons p a ih =>
    by_cases hp : (alookup b p.1).isNone = true
    · rw [show spreadMerge (p :: a) b = p :: spreadMerge a b from by
        simp [spreadMerge, List.filter_cons, hp]]
      by_cases hk : p.1 = k
      · subst hk
        have hbk : alookup b p.1 = none := Option.isNone_iff_eq_none.mp hp
        simp [alookup, hbk]
      · simp [alookup, hk, ih]
    · rw [show spreadMerge (p :: a) b = spreadMerge a b from by
        simp [spreadMerge, List.filter_cons, hp]]
      by_cases hk : p.1 = k
      · subst hk
        have hs : (alookup b p.1).isSome = true := by
          cases hq : alookup b p.1 with
          | none => rw [hq] at hp; simp at hp
          | some v => simp
        obtain ⟨v, hv⟩ := Option.isSome_iff_exists.mp hs
        rw [ih, hv]
      · rw [ih]
        cases hb2 : alookup b k with
        | none => simp [alookup, hk]
        | some v => simp

theorem alookup_filterSchema (allowed : List String) (k : String) :
    ∀ (a : Attrs), alookup (filterSchema allowed a) k
      = if k ∈ allowed then alookup a k else none
  | [] => by simp [filterSchema, alookup]
  | p :: a => by
    have ih := alookup_filterSchema allowed k a
    by_cases hm : p.1 ∈ allowed
    · by_cases hk : p.1 = k
      · subst hk
        simp [filterSchema, List.filter, hm, alookup, ih]
      · simp only [filterSchema, List.filter] at ih ⊢
        simp [hm, alookup, hk, ih]
    · by_cases hk : p.1 = k
      · subst hk
        simp only [filterSchema, List.filter] at ih ⊢
        simp [hm, alookup, ih]
      · simp only [filterSchema, List.filter] at ih ⊢
        simp [hm, alookup, hk, ih]

/-! ### Claim theorems for the upload command -/

/-- C6 counterexample: the claim asserts that selection movement caused by
an earlier insertion cannot change the attributes applied to a later file;
but `_insertFile` re-reads the live selection under the captured set, so
with an identical captured set (`sel 0 = []` in both runs) a selection that
carries `italic` at the second insertion puts `italic` on the second
anchor only. -/
theorem executeAttrs_selection_movement_cex :
    executeAttrs ["italic", "linkHref", "uploadId"]
        (fun i => if i = 0 then [] else [("italic", "true")]) [some "a", some "b"]
      = [some [("linkHref", ""), ("uploadId", "a")],
         some [("italic", "true"), ("linkHref", ""), ("uploadId", "b")]] ∧
    executeAttrs ["italic", "linkHref", "uploadId"]
        (fun _ => []) [some "a", some "b"]
      = [some [("linkHref", ""), ("uploadId", "a")],
         some [("linkHref", ""), ("uploadId", "b")]] := by
  exact ⟨rfl, rfl⟩

/-- C6 (amended): `execute` captures the selection attributes once
(`sel 0`), before any insertion, and passes that same captured set to every
insertion of the invocation, where it overrides same-keyed attributes of
the selection current at that insertion; every captured attribute outside
the reserved `linkHref`/`uploadId` keys (and allowed by the schema) is
inherited by every inserted anchor, `linkHref` is forced to the empty
string and `uploadId` to the file's loader id.  However `_insertFile` also
merges the selection attributes current at insertion time underneath, so a
current-selection attribute whose key is absent from the captured set still
reaches a later anchor. -/
theorem executeAttrs_captures_once_and_inherits (allowed : List String)
    (sel : Nat → Attrs) (loaders : List (Option String)) (i : Nat) (lid : String)
    (hld : loaders.get? i = some (some lid)) :
    (executeAttrs allowed sel loaders).get? i
      = some (some (uploadFileAttrs allowed (sel i) (sel 0) lid)) ∧
    (∀ selNow captured lid2 k v,
      alookup captured k = some v → k ≠ "linkHref" → k ≠ "uploadId" →
      k ∈ allowed →
      alookup (uploadFileAttrs allowed selNow captured lid2) k = some v) ∧
    ("linkHref" ∈ allowed →
      alookup (uploadFileAttrs allowed (sel i) (sel 0) lid) "linkHref" = some "") ∧
    ("uploadId" ∈ allowed →
      alookup (uploadFileAttrs allowed (sel i) (sel 0) lid) "uploadId" = some lid) := by
  refine ⟨?_, ?_, ?_, ?_⟩
  · unfold executeAttrs
    rw [List.get?_map]
    rw [List.get?_enum]
    rw [hld]
    rfl
  · intro selNow captured lid2 k v hv hlh hui hal
    unfold uploadFileAttrs insertFileAttrs
    rw [alookup_filterSchema, if_pos hal, alookup_spreadMerge, alookup_spreadMerge,
      show alookup [("linkHref", ""), ("uploadId", lid2)] k = none by
        simp [alookup, Ne.symm hlh, Ne.symm hui],
      hv]
  · intro hal
    unfold uploadFileAttrs insertFileAttrs
    rw [alookup_filterSchema, if_pos hal, alookup_spreadMerge, alookup_spreadMerge]
    simp [alookup]
  · intro hal
    unfold uploadFileAttrs insertFileAttrs
    rw [alookup_filterSchema, if_pos hal, alookup_spreadMerge, alookup_spreadMerge]
    simp [alookup]

/-- Witness for C6: the capture-once and inheritance facts evaluated at a
concrete two-file invocation whose selection carries `bold`. -/
theorem executeAttrs_captures_once_and_inherits_witness :
    (executeAttrs ["bold", "linkHref", "uploadId"]
        (fun _ => [("bold", "1")]) [some "a", some "b"]).get? 1
      = some (some (uploadFileAttrs ["bold", "linkHref", "uploadId"]
          [("bold", "1")] [("bold", "1")] "b")) ∧
    alookup (uploadFileAttrs ["bold", "linkHref", "uploadId"]
        [] [("bold", "1")] "x") "bold" = some "1" ∧
    alookup (uploadFileAttrs ["bold", "linkHref", "uploadId"]
        [("bold", "1")] [("bold", "1")] "b") "linkHref" = some "" ∧
    alookup (uploadFileAttrs ["bold", "linkHref", "uploadId"]
        [("bold", "1")] [("bold", "1")] "b") "uploadId" = some "b" := by
  have h := executeAttrs_captures_once_and_inherits ["bold", "linkHref", "uploadId"]
    (fun _ => [("bold", "1")]) [some "a", some "b"] 1 "b" (by decide)
  exact ⟨h.1, h.2.1 [] [("bold", "1")] "x" "bold" "1" rfl (by decide) (by decide)
    (by decide), h.2.2.1 (by decide), h.2.2.2 (by decide)⟩

end FileUploader
